import Mathlib

/-!
Verification of the template-substitution and image-field-expansion engine of
`cards.py` (functions `replace_image_fields_with_image_tags` and
`content_from_template`, plus the repeat-count logic of `main`).

Strings are modelled as `List Char`.  Python exceptions that the modelled code
can raise (`ValueError` from `int`, `UnboundLocalError` from reading the
never-assigned local `image_tag`) are modelled with `Except PyError`.
Braces are written with the escapes `\x7b` (`«{»`) and `\x7d` (`«}»`).
-/

abbrev Str := List Char

/-- The two Python exceptions reachable inside the modelled core:
`ValueError` raised by `int(...)` on a non-numeric string, and
`UnboundLocalError` raised on line 62 of `cards.py` when the local
`image_tag` was never assigned (a `:` is present in the field but the
size suffix does not yield two non-negative integers). -/
inductive PyError
  | valueError
  | unboundLocalError
deriving DecidableEq

instance {A : Type} [DecidableEq A] : DecidableEq (Except PyError A) := fun a b =>
  match a, b with
  | .ok x, .ok y =>
      if h : x = y then .isTrue (by rw [h]) else .isFalse (fun hh => by cases hh; exact h rfl)
  | .error x, .error y =>
      if h : x = y then .isTrue (by rw [h]) else .isFalse (fun hh => by cases hh; exact h rfl)
  | .ok _, .error _ => .isFalse (fun hh => by cases hh)
  | .error _, .ok _ => .isFalse (fun hh => by cases hh)

/-- `leadsWith pat s` is true when `pat` is an initial segment of `s`
(Python: `s.startswith(pat)` restricted to what `str.replace` needs). -/
def leadsWith : Str → Str → Bool
  | [], _ => true
  | _ :: _, [] => false
  | a :: as, b :: bs => a == b && leadsWith as bs

/-- `occursInB t s`: `t` occurs as a contiguous substring of `s`. -/
def occursInB (t : Str) : Str → Bool
  | [] => t.isEmpty
  | s@(_ :: rest) => leadsWith t s || occursInB t rest

/-- Propositional form of substring occurrence. -/
def occursIn (t s : Str) : Prop := ∃ x y, s = x ++ t ++ y

/-- Number of `«}»` characters in a string; the termination measure of the
recursive-restart rewriting loop (each replaced span consumes the two `«}»`
of its closing delimiter and its tag re-emits at most the `«}»` of the path). -/
def countCB : Str → Nat
  | [] => 0
  | c :: rest => (if c = '\x7d' then 1 else 0) + countCB rest

/-- Python `field.startswith('@')` (cards.py line 81). -/
def startsWithMarker : Str → Bool
  | '@' :: _ => true
  | _ => false

/-- One decimal digit to its character, for re-printing parsed sizes
(Python `str(explicit_width)`); only ever applied to `n % 10`. -/
def digitChar : Nat → Char
  | 0 => '0'
  | 1 => '1'
  | 2 => '2'
  | 3 => '3'
  | 4 => '4'
  | 5 => '5'
  | 6 => '6'
  | 7 => '7'
  | 8 => '8'
  | _ => '9'

/-- Decimal digits of `n`, most significant first, prepended to `acc`;
fuel-structural (fuel `n + 1` always suffices since `n` shrinks by `/ 10`). -/
def natToDigitsAux : Nat → Nat → Str → Str
  | 0, _, acc => acc
  | fuel + 1, n, acc =>
      let d := digitChar (n % 10)
      if n < 10 then d :: acc else natToDigitsAux fuel (n / 10) (d :: acc)

/-- Python `str(n)` for a non-negative int. -/
def natRepr (n : Nat) : Str := natToDigitsAux (n + 1) n []

/-- Whitespace characters stripped by Python `int()` (ASCII subset). -/
def isWsChar (c : Char) : Bool := c = ' ' || c = '\t' || c = '\n' || c = '\r'

/-- Strip leading and trailing whitespace, as `int()` does before parsing. -/
def stripWs (s : Str) : Str :=
  ((s.dropWhile isWsChar).reverse.dropWhile isWsChar).reverse

/-- Value of a string of decimal digits. -/
def digitsVal : Str → Nat :=
  List.foldl (fun acc c => 10 * acc + (c.toNat - '0'.toNat)) 0

def pyIntCore : Str → Option Int
  | [] => none
  | '-' :: ds =>
      if !ds.isEmpty && ds.all Char.isDigit then some (-(digitsVal ds : Int)) else none
  | '+' :: ds =>
      if !ds.isEmpty && ds.all Char.isDigit then some ((digitsVal ds : Int)) else none
  | ds =>
      if ds.all Char.isDigit then some ((digitsVal ds : Int)) else none

/-- Python `int(s)` for a string: optional surrounding whitespace, optional
sign, then decimal digits; `none` models the `ValueError` raised otherwise.
(The Python 3.6+ `1_0` digit-grouping underscore and non-ASCII digits are
out of scope of this model.) -/
def pyInt (s : Str) : Option Int := pyIntCore (stripWs s)

/-- Python `image_path.rfind(':')` (cards.py line 34): index of the last `:`,
`none` for Python's `-1`.  (CPython's small-int caching makes the script's
`is not -1` behave as `!= -1`.) -/
def rfindColon : Str → Option Nat
  | [] => none
  | c :: rest =>
      match rfindColon rest with
      | some i => some (i + 1)
      | none => if c = ':' then some 0 else none

/-- Python `size.split('x')` (cards.py line 41): split on every `x`,
keeping empty parts; never returns `[]`. -/
def splitOnX : Str → List Str
  | [] => [[]]
  | 'x' :: rest => [] :: splitOnX rest
  | c :: rest =>
      match splitOnX rest with
      | s :: ss => (c :: s) :: ss
      | [] => [[c]]

/-- The `«{{»name«}}»` form shared by template placeholders and image spans
(Python `'{{%s}}' % field`, and the span delimiters of the image regex). -/
def token (n : Str) : Str := '\x7b' :: '\x7b' :: (n ++ ['\x7d', '\x7d'])

/-- `'<img src="{0}">'.format(image_path)` (cards.py line 60). -/
def imgTagNoSize (path : Str) : Str :=
  "<img src=\"".data ++ (path ++ "\">".data)

/-- `'<img src="{0}" width="{1}" height="{2}">'` (cards.py lines 55-58);
the width/height are the parsed (non-negative) ints re-printed by `format`. -/
def imgTagSized (path : Str) (w h : Nat) : Str :=
  "<img src=\"".data ++
    (path ++ ("\" width=\"".data ++ (natRepr w ++ ("\" height=\"".data ++ (natRepr h ++ "\">".data)))))

/-- Processing of one non-empty span's inner text (cards.py lines 34-60):
locate the last `:`; with no `:` produce the no-size tag; otherwise split the
suffix on `x`.  When the split has at least two parts, both are parsed by
`int` (`ValueError` propagates) and negatives are cleared to `None`; the tag
is only assigned when both dimensions are non-`None`, and the final read of
`image_tag` on line 62 otherwise raises `UnboundLocalError` (the `else` of
line 59 is attached to `if size_index is not -1`, so there is no fall-through
to the no-size form). -/
def processSpan (image_path : Str) : Except PyError Str :=
  match rfindColon image_path with
  | some size_index =>
      match splitOnX (List.drop (size_index + 1) image_path) with
      | s0 :: s1 :: _ =>
          match pyInt s0, pyInt s1 with
          | some w, some h =>
              if 0 ≤ w ∧ 0 ≤ h then
                .ok (imgTagSized (List.take size_index image_path) w.toNat h.toNat)
              else .error .unboundLocalError
          | _, _ => .error .valueError
      | _ => .error .unboundLocalError
  | none => .ok (imgTagNoSize image_path)

/-- Split at the first `«}}»`: `r = before ++ «}}» ++ after` with no `«}}»`
inside `before` (the non-greedy closing of the regex `{{(.*?)}}`). -/
def splitAtClose : Str → Option (Str × Str)
  | [] => none
  | '\x7d' :: '\x7d' :: rest => some ([], rest)
  | c :: rest => (splitAtClose rest).map (fun p => (c :: p.1, p.2))

/-- The match-scanning loop of cards.py lines 28-31: find the leftmost
`«{{»...«}}»` span (non-greedy, DOTALL) with non-empty inner text, skipping
empty `«{{}}»` matches exactly as the `len(image_path) > 0` guard does
(`re.finditer` yields non-overlapping matches, so scanning resumes after the
skipped span).  Returns `(text before the match, inner text, text after)`. -/
def findSpanAux : Str → Option (Str × Str × Str)
  | [] => none
  | '\x7b' :: '\x7b' :: '\x7d' :: '\x7d' :: rest =>
      (findSpanAux rest).map
        (fun r => ('\x7b' :: '\x7b' :: '\x7d' :: '\x7d' :: r.1, r.2.1, r.2.2))
  | '\x7b' :: '\x7b' :: rest =>
      (splitAtClose rest).map (fun p => (([] : Str), p.1, p.2))
  | c :: rest => (findSpanAux rest).map (fun r => (c :: r.1, r.2.1, r.2.2))

/-- Fuel-structural core of `replace_image_fields_with_image_tags`: rewrite
the first non-empty span and restart on the whole updated string (the
`string = string[:match.start()] + image_tag + string[match.end():]` plus
recursive call of cards.py lines 62-68).  Each step removes at least two
`«}»` characters, so fuel `countCB s` always suffices (`replaceImagesF_irrel`
and `replace_image_fields_unfold` below make the definition fuel-faithful);
when fuel hits `0` the string can hold no further span. -/
def replaceImagesF : Nat → Str → Except PyError Str
  | 0, s => .ok s
  | fuel + 1, s =>
      match findSpanAux s with
      | none => .ok s
      | some (pre, inner, post) =>
          match processSpan inner with
          | .error e => .error e
          | .ok tag => replaceImagesF fuel (pre ++ (tag ++ post))

/-- `replace_image_fields_with_image_tags` (cards.py lines 23-70). -/
def replace_image_fields_with_image_tags (s : Str) : Except PyError Str :=
  replaceImagesF (countCB s) s

/-- Fuel-structural core of Python `str.replace` (scan left to right,
replacing non-overlapping occurrences); fuel `s.length` always suffices.
The `!o.isEmpty` guard is unreachable at the call sites (the pattern is
always a `token`, of length at least 4). -/
def strReplaceF (o v : Str) : Nat → Str → Str
  | 0, s => s
  | fuel + 1, s =>
      match s with
      | [] => []
      | c :: rest =>
          if !o.isEmpty && leadsWith o s then v ++ strReplaceF o v fuel (List.drop o.length s)
          else c :: strReplaceF o v fuel rest

/-- Python `content.replace(old, new)` as used on cards.py line 88. -/
def strReplace (o v s : Str) : Str := strReplaceF o v s.length s

/-- `content_from_template` (cards.py lines 73-90).  A CSV row is an ordered
mapping with unique keys; it is modelled as the association list of its items
in insertion order.  Fields whose name starts with `@` are skipped; every
other field's value is image-expanded (errors propagate) and then every
occurrence of `«{{»field«}}»` in the accumulated content is replaced. -/
def content_from_template (data : List (Str × Str)) (template : Str) : Except PyError Str :=
  match data with
  | [] => .ok template
  | (field, value) :: rest =>
      if startsWithMarker field then content_from_template rest template
      else
        match replace_image_fields_with_image_tags value with
        | .error e => .error e
        | .ok fv => content_from_template rest (strReplace (token field) fv template)

/-- The specification's description of rendering a record with no image
syntax in its values: visit fields in insertion order, skip marker fields,
and literally substitute each remaining field's raw value. -/
def renderPlain (data : List (Str × Str)) (template : Str) : Str :=
  match data with
  | [] => template
  | (field, value) :: rest =>
      if startsWithMarker field then renderPlain rest template
      else renderPlain rest (strReplace (token field) value template)

/-- `s` contains two adjacent `«}»` characters (a closing delimiter). -/
def hasClose : Str → Bool
  | [] => false
  | c :: rest => (c == '\x7d' && rest.head? == some '\x7d') || hasClose rest

/-- `s` contains a `«{{»...«}}»` span (even an empty one), i.e. the regex
`{{(.*?)}}` has a match in `s`: some `«{{»` is followed, further right, by
a `«}}»`. -/
def hasSpan : Str → Bool
  | [] => false
  | c :: rest =>
      (c == '\x7b' && rest.head? == some '\x7b' && hasClose (rest.drop 1)) || hasSpan rest

/-- `i` can stand as the inner text of a well-delimited span: wrapping it as
`«{{»i«}}»` closes exactly at the appended delimiter (no `«}}»` inside `i`,
and `i` does not end in `«}»`, which would pair with the closing delimiter). -/
def cleanInner (i : Str) : Bool := !(hasClose (i ++ ['\x7d']))

/-- No `«{»` or `«}»` occurs in `s`. -/
def braceFree (s : Str) : Bool := s.all (fun c => c != '\x7b' && c != '\x7d')

/-- Python `row.get(k)`: first (unique) matching key's value. -/
def pyGet (row : List (Str × Str)) (k : Str) : Option Str :=
  match row with
  | [] => none
  | (f, v) :: rest => if f = k then some v else pyGet rest k

/-- The repeat-count logic of `main` (cards.py lines 210-214):
`count = int(row.get('@count', 1))` (so an absent field yields `int(1) = 1`,
and a present non-numeric value raises `ValueError`), then a negative count
is clamped to `0`. -/
def countFromRow (row : List (Str × Str)) : Except PyError Int :=
  match pyGet row "@count".data with
  | none => .ok 1
  | some v =>
      match pyInt v with
      | none => .error .valueError
      | some n => .ok (if n < 0 then 0 else n)

/-- Occurrences of `t` and occurrences of `o` can never overlap, in any
string: whenever both occur, their index ranges are disjoint. -/
def NoOverlap (t o : Str) : Prop :=
  ∀ a b c d : Str, a ++ t ++ b = c ++ o ++ d →
    a.length + t.length ≤ c.length ∨ c.length + o.length ≤ a.length

/-- Whether a run of the engine succeeded (`true`) or raised (`false`). -/
def exceptIsOk : Except PyError Str → Bool
  | .ok _ => true
  | .error _ => false

/-! ### Basic lemmas about the string helpers -/

theorem leadsWith_iff (o s : Str) : leadsWith o s = true ↔ ∃ r, s = o ++ r := by
  induction o generalizing s with
  | nil => simp [leadsWith]
  | cons a as ih =>
      cases s with
      | nil => simp [leadsWith]
      | cons b bs =>
          simp only [leadsWith, Bool.and_eq_true, beq_iff_eq, ih]
          constructor
          · rintro ⟨rfl, r, rfl⟩; exact ⟨r, rfl⟩
          · rintro ⟨r, hr⟩
            cases hr
            exact ⟨rfl, r, rfl⟩

theorem occursInB_iff (t s : Str) : occursInB t s = true ↔ occursIn t s := by
  induction s with
  | nil =>
      simp only [occursInB, occursIn, List.isEmpty_iff]
      constructor
      · rintro rfl; exact ⟨[], [], rfl⟩
      · rintro ⟨x, y, hxy⟩
        have h2 := hxy.symm
        simp only [List.append_eq_nil] at h2
        exact h2.1.2
  | cons c rest ih =>
      simp only [occursInB, Bool.or_eq_true, leadsWith_iff, ih, occursIn]
      constructor
      · rintro (⟨r, hr⟩ | ⟨x, y, rfl⟩)
        · exact ⟨[], r, hr⟩
        · exact ⟨c :: x, y, rfl⟩
      · rintro ⟨x, y, hxy⟩
        cases x with
        | nil => exact Or.inl ⟨y, by simpa using hxy⟩
        | cons d x' =>
            rw [List.cons_append, List.cons_append] at hxy
            cases hxy
            exact Or.inr ⟨x', y, rfl⟩

instance (t s : Str) : Decidable (occursIn t s) :=
  decidable_of_iff _ (occursInB_iff t s)

theorem occursIn_append_left (t l v : Str) (h : occursIn t l) : occursIn t (v ++ l) := by
  obtain ⟨x, y, rfl⟩ := h
  exact ⟨v ++ x, y, by simp⟩

theorem occursIn_cons (t l : Str) (c : Char) (h : occursIn t l) : occursIn t (c :: l) := by
  obtain ⟨x, y, rfl⟩ := h
  exact ⟨c :: x, y, rfl⟩

theorem countCB_append (a b : Str) : countCB (a ++ b) = countCB a + countCB b := by
  induction a with
  | nil => simp [countCB]
  | cons c a ih => simp [countCB, ih]; omega

theorem countCB_eq_zero (l : Str) (h : ∀ c ∈ l, c ≠ '\x7d') : countCB l = 0 := by
  induction l with
  | nil => rfl
  | cons c rest ih =>
      have hc : c ≠ '\x7d' := h c (by simp)
      simp [countCB, hc, ih (fun d hd => h d (by simp [hd]))]

theorem countCB_take_le (k : Nat) (l : Str) : countCB (List.take k l) ≤ countCB l := by
  conv_rhs => rw [← List.take_append_drop k l]
  rw [countCB_append]
  omega

theorem not_mem_of_countCB_zero (l : Str) (h : countCB l = 0) : '\x7d' ∉ l := by
  induction l with
  | nil => simp
  | cons c rest ih =>
      simp only [countCB] at h
      by_cases hc : c = '\x7d'
      · simp [hc] at h
      · simp only [List.mem_cons]
        rintro (rfl | hm)
        · exact hc rfl
        · exact ih (by omega) hm

theorem digitChar_ne_cb (m : Nat) : digitChar m ≠ '\x7d' := by
  unfold digitChar
  split <;> decide

theorem natToDigitsAux_chars (fuel n : Nat) (acc : Str)
    (hacc : ∀ c ∈ acc, c ≠ '\x7d') :
    ∀ c ∈ natToDigitsAux fuel n acc, c ≠ '\x7d' := by
  induction fuel generalizing n acc with
  | zero => exact hacc
  | succ fuel ih =>
      simp only [natToDigitsAux]
      split
      · intro c hc
        rcases List.mem_cons.mp hc with rfl | hm
        · exact digitChar_ne_cb _
        · exact hacc c hm
      · refine ih _ _ (fun c hc => ?_)
        rcases List.mem_cons.mp hc with rfl | hm
        · exact digitChar_ne_cb _
        · exact hacc c hm

theorem natRepr_chars (n : Nat) : ∀ c ∈ natRepr n, c ≠ '\x7d' :=
  natToDigitsAux_chars _ _ _ (by simp)

theorem countCB_natRepr (n : Nat) : countCB (natRepr n) = 0 :=
  countCB_eq_zero _ (natRepr_chars n)

theorem natToDigitsAux_ne_nil (fuel n : Nat) (acc : Str)
    (h : 1 ≤ fuel ∨ acc ≠ []) : natToDigitsAux fuel n acc ≠ [] := by
  induction fuel generalizing n acc with
  | zero =>
      rcases h with h | h
      · omega
      · exact h
  | succ fuel ih =>
      simp only [natToDigitsAux]
      split
      · simp
      · exact ih _ _ (Or.inr (by simp))

theorem natRepr_ne_nil (n : Nat) : natRepr n ≠ [] :=
  natToDigitsAux_ne_nil _ _ _ (Or.inl (by omega))

/-! ### Lemmas about span scanning -/

theorem splitAtClose_decomp (r i p : Str) (h : splitAtClose r = some (i, p)) :
    r = i ++ '\x7d' :: '\x7d' :: p := by
  induction r using splitAtClose.induct generalizing i p with
  | case1 => simp [splitAtClose] at h
  | case2 rest => simp [splitAtClose] at h; simp [← h.1, ← h.2]
  | case3 c rest hne ih =>
      simp only [splitAtClose, Option.map_eq_some'] at h
      obtain ⟨⟨i', p'⟩, hsp, heq⟩ := h
      cases heq
      simp [ih _ _ hsp]

theorem hasClose_cons (c : Char) (l : Str) :
    hasClose (c :: l) = true ↔ (c = '\x7d' ∧ l.head? = some '\x7d') ∨ hasClose l = true := by
  simp [hasClose]

theorem hasClose_cons_of_tail (c : Char) (l : Str) (h : hasClose (c :: l) = false) :
    hasClose l = false := by
  simp only [hasClose, Bool.or_eq_false_iff] at h
  exact h.2

theorem splitAtClose_none (r : Str) (h : hasClose r = false) : splitAtClose r = none := by
  induction r using splitAtClose.induct with
  | case1 => rfl
  | case2 rest => simp [hasClose] at h
  | case3 c rest hne ih =>
      simp only [splitAtClose, Option.map_eq_none']
      exact ih (hasClose_cons_of_tail _ _ h)

theorem findSpanAux_decomp (s pre i post : Str) (h : findSpanAux s = some (pre, i, post)) :
    s = pre ++ token i ++ post := by
  induction s using findSpanAux.induct generalizing pre i post with
  | case1 => simp [findSpanAux] at h
  | case2 rest ih =>
      simp only [findSpanAux, Option.map_eq_some'] at h
      obtain ⟨⟨p', i', q'⟩, hsp, heq⟩ := h
      cases heq
      simpa [token] using ih _ _ _ hsp
  | case3 rest hne =>
      simp only [findSpanAux, Option.map_eq_some'] at h
      obtain ⟨⟨i', q'⟩, hsp, heq⟩ := h
      cases heq
      simp [token, splitAtClose_decomp _ _ _ hsp]
  | case4 c rest hne1 hne2 ih =>
      simp only [findSpanAux, Option.map_eq_some'] at h
      obtain ⟨⟨p', i', q'⟩, hsp, heq⟩ := h
      cases heq
      simp [ih _ _ _ hsp]

theorem findSpanAux_none_of_no_close (s : Str) (h : hasClose s = false) :
    findSpanAux s = none := by
  induction s using findSpanAux.induct with
  | case1 => rfl
  | case2 rest ih => simp [hasClose] at h
  | case3 rest hne =>
      simp only [findSpanAux, Option.map_eq_none']
      exact splitAtClose_none _ (hasClose_cons_of_tail _ _ (hasClose_cons_of_tail _ _ h))
  | case4 c rest hne1 hne2 ih =>
      simp only [findSpanAux, Option.map_eq_none']
      exact ih (hasClose_cons_of_tail _ _ h)

theorem hasSpan_cons_of_tail (c : Char) (l : Str) (h : hasSpan (c :: l) = false) :
    hasSpan l = false := by
  simp only [hasSpan, Bool.or_eq_false_iff] at h
  exact h.2

theorem findSpanAux_none_of_no_span (s : Str) (h : hasSpan s = false) :
    findSpanAux s = none := by
  induction s using findSpanAux.induct with
  | case1 => rfl
  | case2 rest ih => simp [hasSpan, hasClose] at h
  | case3 rest hne =>
      simp only [findSpanAux, Option.map_eq_none']
      simp only [hasSpan, Bool.or_eq_false_iff, Bool.and_eq_false_iff] at h
      rcases h.1 with h1 | h1
      · rcases h1 with h1 | h1 <;> simp at h1
      · exact splitAtClose_none _ (by simpa using h1)
  | case4 c rest hne1 hne2 ih =>
      simp only [findSpanAux, Option.map_eq_none']
      exact ih (hasSpan_cons_of_tail _ _ h)

theorem hasClose_eq_false_of_not_mem (l : Str) (h : ∀ c ∈ l, c ≠ '\x7d') :
    hasClose l = false := by
  induction l with
  | nil => rfl
  | cons c rest ih =>
      have hc : c ≠ '\x7d' := h c (by simp)
      simp [hasClose, hc, ih (fun d hd => h d (by simp [hd]))]

theorem hasClose_of_countCB_zero (s : Str) (h : countCB s = 0) : hasClose s = false :=
  hasClose_eq_false_of_not_mem s
    (fun _c hc hcc => not_mem_of_countCB_zero s h (hcc ▸ hc))

theorem findSpanAux_none_of_countCB_zero (s : Str) (h : countCB s = 0) :
    findSpanAux s = none :=
  findSpanAux_none_of_no_close s (hasClose_of_countCB_zero s h)

theorem hasClose_append (x y : Str) :
    hasClose (x ++ y) = true ↔
      hasClose x = true ∨ hasClose y = true ∨
        (x.getLast? = some '\x7d' ∧ y.head? = some '\x7d') := by
  induction x with
  | nil => simp [hasClose]
  | cons c x' ih =>
      rw [List.cons_append, hasClose_cons, hasClose_cons, ih]
      cases x' with
      | nil => simp; tauto
      | cons d x'' =>
          simp only [List.head?_cons, List.cons_append, List.getLast?_cons_cons]
          tauto

/-! ### The tag produced for a span has no more closing braces than the span -/

theorem countCB_cons (c : Char) (l : Str) :
    countCB (c :: l) = (if c = '\x7d' then 1 else 0) + countCB l := rfl

theorem countCB_lit_src : countCB ("<img src=\"".data) = 0 := by decide

theorem countCB_lit_end : countCB ("\">".data) = 0 := by decide

theorem countCB_lit_width : countCB ("\" width=\"".data) = 0 := by decide

theorem countCB_lit_height : countCB ("\" height=\"".data) = 0 := by decide

theorem countCB_imgTagNoSize (path : Str) :
    countCB (imgTagNoSize path) = countCB path := by
  rw [imgTagNoSize, countCB_append, countCB_append, countCB_lit_src, countCB_lit_end]
  omega

theorem countCB_imgTagSized (path : Str) (w h : Nat) :
    countCB (imgTagSized path w h) = countCB path := by
  rw [imgTagSized, countCB_append, countCB_append, countCB_append, countCB_append,
    countCB_append, countCB_append, countCB_lit_src, countCB_lit_end,
    countCB_lit_width, countCB_lit_height, countCB_natRepr, countCB_natRepr]
  omega

theorem processSpan_countCB (i tag : Str) (h : processSpan i = .ok tag) :
    countCB tag ≤ countCB i := by
  cases hrf : rfindColon i with
  | none =>
      simp only [processSpan, hrf] at h
      cases h
      rw [countCB_imgTagNoSize]
  | some k =>
      cases hsp : splitOnX (List.drop (k + 1) i) with
      | nil => simp only [processSpan, hrf, hsp] at h; cases h
      | cons s0 rest0 =>
          cases rest0 with
          | nil => simp only [processSpan, hrf, hsp] at h; cases h
          | cons s1 rest1 =>
              cases hp0 : pyInt s0 with
              | none => simp only [processSpan, hrf, hsp, hp0] at h; cases h
              | some w =>
                  cases hp1 : pyInt s1 with
                  | none => simp only [processSpan, hrf, hsp, hp0, hp1] at h; cases h
                  | some hh =>
                      simp only [processSpan, hrf, hsp, hp0, hp1] at h
                      split at h
                      · cases h
                        rw [countCB_imgTagSized]
                        exact countCB_take_le k i
                      · cases h

theorem countCB_token (i : Str) : countCB (token i) = countCB i + 2 := by
  have hne : ¬('\x7b' = '\x7d') := by decide
  have h2 : countCB ['\x7d', '\x7d'] = 2 := by decide
  rw [token, countCB_cons, countCB_cons, countCB_append, if_neg hne, h2]
  omega

theorem step_countCB (s pre i post tag : Str)
    (hs : findSpanAux s = some (pre, i, post)) (hp : processSpan i = .ok tag) :
    countCB (pre ++ (tag ++ post)) + 2 ≤ countCB s := by
  have hd := findSpanAux_decomp _ _ _ _ hs
  subst hd
  have h3 := processSpan_countCB _ _ hp
  simp only [countCB_append, countCB_token]
  omega

/-! ### Fuel-faithfulness of the recursive-restart loop -/

theorem replaceImagesF_succ_none (fuel : Nat) (s : Str) (hf : findSpanAux s = none) :
    replaceImagesF (fuel + 1) s = .ok s := by
  simp only [replaceImagesF, hf]

theorem replaceImagesF_succ_err (fuel : Nat) (s pre i post : Str) (e : PyError)
    (hf : findSpanAux s = some (pre, i, post)) (hp : processSpan i = .error e) :
    replaceImagesF (fuel + 1) s = .error e := by
  simp only [replaceImagesF, hf, hp]

theorem replaceImagesF_succ_ok (fuel : Nat) (s pre i post tag : Str)
    (hf : findSpanAux s = some (pre, i, post)) (hp : processSpan i = .ok tag) :
    replaceImagesF (fuel + 1) s = replaceImagesF fuel (pre ++ (tag ++ post)) := by
  simp only [replaceImagesF, hf, hp]

theorem replaceImagesF_irrel (f1 : Nat) : ∀ (f2 : Nat) (s : Str),
    countCB s ≤ f1 → countCB s ≤ f2 → replaceImagesF f1 s = replaceImagesF f2 s := by
  induction f1 with
  | zero =>
      intro f2 s h1 h2
      have hn := findSpanAux_none_of_countCB_zero s (Nat.le_zero.mp h1)
      cases f2 with
      | zero => rfl
      | succ f2 => rw [replaceImagesF_succ_none f2 s hn]; rfl
  | succ f1 ih =>
      intro f2 s h1 h2
      cases f2 with
      | zero =>
          have hn := findSpanAux_none_of_countCB_zero s (Nat.le_zero.mp h2)
          rw [replaceImagesF_succ_none f1 s hn]; rfl
      | succ f2 =>
          cases hf : findSpanAux s with
          | none => rw [replaceImagesF_succ_none f1 s hf, replaceImagesF_succ_none f2 s hf]
          | some r =>
              obtain ⟨pre, i, post⟩ := r
              cases hp : processSpan i with
              | error e =>
                  rw [replaceImagesF_succ_err f1 s pre i post e hf hp,
                    replaceImagesF_succ_err f2 s pre i post e hf hp]
              | ok tag =>
                  rw [replaceImagesF_succ_ok f1 s pre i post tag hf hp,
                    replaceImagesF_succ_ok f2 s pre i post tag hf hp]
                  have hstep := step_countCB s pre i post tag hf hp
                  exact ih f2 _ (by omega) (by omega)

/-- No span left: the expander returns its input (cards.py line 70 via an
empty iteration of the match loop). -/
theorem replace_unfold_none (s : Str) (hf : findSpanAux s = none) :
    replace_image_fields_with_image_tags s = .ok s := by
  unfold replace_image_fields_with_image_tags
  cases hc : countCB s with
  | zero => rfl
  | succ k => exact replaceImagesF_succ_none k s hf

/-- Processing the first non-empty span raises: the exception propagates. -/
theorem replace_unfold_err (s pre i post : Str) (e : PyError)
    (hf : findSpanAux s = some (pre, i, post)) (hp : processSpan i = .error e) :
    replace_image_fields_with_image_tags s = .error e := by
  unfold replace_image_fields_with_image_tags
  cases hc : countCB s with
  | zero =>
      have := findSpanAux_none_of_countCB_zero s hc
      rw [this] at hf
      cases hf
  | succ k => exact replaceImagesF_succ_err k s pre i post e hf hp

/-- Processing the first non-empty span succeeds: splice in the tag and
restart on the whole updated string (cards.py lines 62-66). -/
theorem replace_unfold_ok (s pre i post tag : Str)
    (hf : findSpanAux s = some (pre, i, post)) (hp : processSpan i = .ok tag) :
    replace_image_fields_with_image_tags s =
      replace_image_fields_with_image_tags (pre ++ (tag ++ post)) := by
  unfold replace_image_fields_with_image_tags
  cases hc : countCB s with
  | zero =>
      have := findSpanAux_none_of_countCB_zero s hc
      rw [this] at hf
      cases hf
  | succ k =>
      rw [replaceImagesF_succ_ok k s pre i post tag hf hp]
      have hstep := step_countCB s pre i post tag hf hp
      exact replaceImagesF_irrel k _ _ (by omega) le_rfl

theorem replaceImagesF_ok_no_span (fuel : Nat) : ∀ s r : Str, countCB s ≤ fuel →
    replaceImagesF fuel s = .ok r → findSpanAux r = none := by
  induction fuel with
  | zero =>
      intro s r hf h
      cases h
      exact findSpanAux_none_of_countCB_zero _ (Nat.le_zero.mp hf)
  | succ fuel ih =>
      intro s r hf h
      cases hfs : findSpanAux s with
      | none =>
          rw [replaceImagesF_succ_none fuel s hfs] at h
          cases h
          exact hfs
      | some p =>
          obtain ⟨pre, i, post⟩ := p
          cases hp : processSpan i with
          | error e => rw [replaceImagesF_succ_err fuel s pre i post e hfs hp] at h; cases h
          | ok tag =>
              rw [replaceImagesF_succ_ok fuel s pre i post tag hfs hp] at h
              have hstep := step_countCB s pre i post tag hfs hp
              exact ih _ _ (by omega) h

/-- A successful run of the expander leaves no span behind (the recursion
only returns at the no-match terminal case). -/
theorem replace_ok_no_span (s r : Str)
    (h : replace_image_fields_with_image_tags s = .ok r) : findSpanAux r = none :=
  replaceImagesF_ok_no_span (countCB s) s r le_rfl h

/-! ### Fuel-faithfulness of the replace scan -/

theorem strReplaceF_irrel (o v : Str) (f1 : Nat) : ∀ (f2 : Nat) (s : Str),
    s.length ≤ f1 → s.length ≤ f2 → strReplaceF o v f1 s = strReplaceF o v f2 s := by
  induction f1 with
  | zero =>
      intro f2 s h1 _h2
      have hs : s = [] := List.eq_nil_of_length_eq_zero (Nat.le_zero.mp h1)
      subst hs
      cases f2 <;> rfl
  | succ f1 ih =>
      intro f2 s h1 h2
      cases s with
      | nil => cases f2 <;> rfl
      | cons c rest =>
          cases f2 with
          | zero => simp at h2
          | succ f2 =>
              simp only [strReplaceF]
              by_cases hcond : (!o.isEmpty && leadsWith o (c :: rest)) = true
              · rw [if_pos hcond, if_pos hcond]
                have ho : 0 < o.length := by
                  rcases o with _ | ⟨a, as⟩
                  · simp at hcond
                  · simp
                simp only [List.length_cons] at h1 h2
                congr 1
                apply ih
                · rw [List.length_drop]; simp only [List.length_cons]; omega
                · rw [List.length_drop]; simp only [List.length_cons]; omega
              · rw [if_neg hcond, if_neg hcond]
                congr 1
                exact ih f2 rest (by simpa using h1) (by simpa using h2)

theorem strReplace_nil (o v : Str) : strReplace o v [] = [] := rfl

/-- The scan equation of Python `str.replace`: at each position, either the
pattern matches and is replaced (scanning resumes past it), or one character
is kept. -/
theorem strReplace_cons (o v : Str) (c : Char) (rest : Str) :
    strReplace o v (c :: rest) =
      if !o.isEmpty && leadsWith o (c :: rest) then
        v ++ strReplace o v (List.drop o.length (c :: rest))
      else c :: strReplace o v rest := by
  by_cases hcond : (!o.isEmpty && leadsWith o (c :: rest)) = true
  · rw [if_pos hcond]
    show strReplaceF o v ((c :: rest).length) (c :: rest) = _
    simp only [List.length_cons, strReplaceF, if_pos hcond]
    congr 1
    have ho : 0 < o.length := by
      rcases o with _ | ⟨a, as⟩
      · simp at hcond
      · simp
    apply strReplaceF_irrel
    · rw [List.length_drop]; simp only [List.length_cons]; omega
    · exact le_rfl
  · rw [if_neg hcond]
    show strReplaceF o v ((c :: rest).length) (c :: rest) = _
    simp only [List.length_cons, strReplaceF, if_neg hcond]
    rfl

/-- Scanning across a stretch of text in which no occurrence of the pattern
starts leaves that stretch untouched. -/
theorem strReplace_scan (o v y t : Str)
    (H : ∀ u w, t = u ++ w → w ≠ [] → leadsWith o (w ++ y) = false) :
    strReplace o v (t ++ y) = t ++ strReplace o v y := by
  induction t with
  | nil => simp
  | cons c t' ih =>
      rw [List.cons_append, strReplace_cons]
      have hfalse : leadsWith o (c :: (t' ++ y)) = false := by
        have := H [] (c :: t') rfl (by simp)
        simpa using this
      rw [if_neg (by simp [hfalse])]
      rw [ih (fun u w hw hne => H (c :: u) w (by rw [hw]; rfl) hne)]
      simp

theorem replace_of_no_hasSpan (v : Str) (h : hasSpan v = false) :
    replace_image_fields_with_image_tags v = .ok v :=
  replace_unfold_none v (findSpanAux_none_of_no_span v h)

/-! ### Skipped empty spans commute with expansion -/

theorem findSpanAux_empty_skip (t : Str) :
    findSpanAux ('\x7b' :: '\x7b' :: '\x7d' :: '\x7d' :: t) =
      (findSpanAux t).map
        (fun r => ('\x7b' :: '\x7b' :: '\x7d' :: '\x7d' :: r.1, r.2.1, r.2.2)) := rfl

/-! ### Rendering with no image syntax in the values (claim C1) -/

/-- Claim C1: for a record whose field values contain no image-syntax span,
`content_from_template` equals visiting the fields in insertion order,
skipping marker fields, and literally replacing every occurrence of
`«{{»field«}}»` in the accumulated text with the field's raw value. -/
theorem c1_render_is_literal_substitution (data : List (Str × Str)) (template : Str)
    (h : ∀ p ∈ data, hasSpan p.2 = false) :
    content_from_template data template = .ok (renderPlain data template) := by
  induction data generalizing template with
  | nil => rfl
  | cons p rest ih =>
      obtain ⟨field, value⟩ := p
      cases hm : startsWithMarker field with
      | true =>
          simp only [content_from_template, renderPlain, hm, if_true]
          exact ih _ (fun q hq => h q (by simp [hq]))
      | false =>
          have hv : replace_image_fields_with_image_tags value = .ok value :=
            replace_of_no_hasSpan value (h (field, value) (by simp))
          simp only [content_from_template, renderPlain, hm, if_false, Bool.false_eq_true, hv]
          exact ih _ (fun q hq => h q (by simp [hq]))

/-- Witness for C1 at a concrete record and template. -/
theorem c1_render_is_literal_substitution_witness :
    (∀ p ∈ [(("name".data : Str), ("Ace".data : Str))], hasSpan p.2 = false) ∧
      content_from_template [("name".data, "Ace".data)] ("Name: \x7b\x7bname\x7d\x7d!".data) =
        .ok (renderPlain [("name".data, "Ace".data)] ("Name: \x7b\x7bname\x7d\x7d!".data)) :=
  ⟨by decide, c1_render_is_literal_substitution _ _ (by decide)⟩

/-! ### Marker-prefixed fields contribute nothing (claim C8) -/

/-- Claim C8: fields whose name starts with the reserved marker `@` are
skipped entirely: rendering a record equals rendering the record with all
marker fields removed (in particular their values are never expanded, so a
malformed image field in a marker column cannot raise). -/
theorem c8_marker_fields_removed (data : List (Str × Str)) (template : Str) :
    content_from_template data template =
      content_from_template (data.filter (fun p => !startsWithMarker p.1)) template := by
  induction data generalizing template with
  | nil => rfl
  | cons p rest ih =>
      obtain ⟨field, value⟩ := p
      cases hm : startsWithMarker field with
      | true =>
          rw [List.filter_cons_of_neg (by simp [hm])]
          simp only [content_from_template, hm, if_true]
          exact ih template
      | false =>
          rw [List.filter_cons_of_pos (by simp [hm])]
          simp only [content_from_template, hm, if_false, Bool.false_eq_true]
          cases hr : replace_image_fields_with_image_tags value with
          | error e => rfl
          | ok fv => exact ih _

/-! ### Idempotence of image expansion (claim C4) -/

/-- Claim C4: expansion is a fixpoint operation: running the expander on an
expander result changes nothing (a successful run leaves no span behind, and
an exception short-circuits), for every input. -/
theorem c4_expand_idempotent (s : Str) :
    (replace_image_fields_with_image_tags s).bind replace_image_fields_with_image_tags
      = replace_image_fields_with_image_tags s := by
  cases h : replace_image_fields_with_image_tags s with
  | error e => rfl
  | ok r =>
      have hn := replace_ok_no_span s r h
      simp only [Except.bind]
      exact replace_unfold_none r hn

/-! ### A present-but-invalid size raises UnboundLocalError (claim C2) -/

/-- Claim C2 is false on the code: when a `:` is present but the size suffix
does not give two non-negative integers, `image_tag` is never assigned (the
`else` on cards.py line 59 belongs to `if size_index is not -1`), so line 62
raises `UnboundLocalError` instead of falling through to the no-size form
`<img src="a/b.svg">` that the claim (and the spec) promise. -/
theorem c2_negative_dim_raises_unbound_local :
    replace_image_fields_with_image_tags (token ("a/b.svg:-1x16".data)) =
        .error .unboundLocalError ∧
      replace_image_fields_with_image_tags (token ("a/b.svg:-1x16".data)) ≠
        .ok (imgTagNoSize ("a/b.svg".data)) := by
  decide

/-! ### Well-delimited spans and span-free image tags -/

theorem hasClose_append_false (x y : Str) (hx : hasClose x = false) (hy : hasClose y = false)
    (hb : x.getLast? ≠ some '\x7d' ∨ y.head? ≠ some '\x7d') :
    hasClose (x ++ y) = false := by
  cases hc : hasClose (x ++ y) with
  | false => rfl
  | true =>
      rcases (hasClose_append x y).mp hc with h | h | h
      · rw [hx] at h; cases h
      · rw [hy] at h; cases h
      · rcases hb with hb | hb
        · exact absurd h.1 hb
        · exact absurd h.2 hb

theorem hasClose_take (k : Nat) (i : Str) (h : hasClose i = false) :
    hasClose (List.take k i) = false := by
  cases hc : hasClose (List.take k i) with
  | false => rfl
  | true =>
      have h2 : hasClose (List.take k i ++ List.drop k i) = true :=
        (hasClose_append _ _).mpr (Or.inl hc)
      rw [List.take_append_drop, h] at h2
      cases h2

theorem hasClose_natRepr (n : Nat) : hasClose (natRepr n) = false :=
  hasClose_eq_false_of_not_mem _ (natRepr_chars n)

theorem head_append_ne_nil (l m : Str) (h : l ≠ []) : (l ++ m).head? = l.head? := by
  cases l with
  | nil => exact absurd rfl h
  | cons c rest => rfl

theorem hasClose_imgTagNoSize (path : Str) (hp : hasClose path = false) :
    hasClose (imgTagNoSize path) = false := by
  rw [imgTagNoSize]
  refine hasClose_append_false _ _ (by decide) ?_ (Or.inl (by decide))
  exact hasClose_append_false _ _ hp (by decide) (Or.inr (by decide))

theorem hasClose_imgTagSized (path : Str) (w h : Nat) (hp : hasClose path = false) :
    hasClose (imgTagSized path w h) = false := by
  rw [imgTagSized]
  refine hasClose_append_false _ _ (by decide) ?_ (Or.inl (by decide))
  refine hasClose_append_false _ _ hp ?_
    (Or.inr (by rw [head_append_ne_nil _ _ (by decide)]; decide))
  refine hasClose_append_false _ _ (by decide) ?_ (Or.inl (by decide))
  refine hasClose_append_false _ _ (hasClose_natRepr w) ?_
    (Or.inr (by rw [head_append_ne_nil _ _ (by decide)]; decide))
  refine hasClose_append_false _ _ (by decide) ?_ (Or.inl (by decide))
  exact hasClose_append_false _ _ (hasClose_natRepr h) (by decide) (Or.inr (by decide))

theorem hasClose_of_cleanInner (i : Str) (h : cleanInner i = true) : hasClose i = false := by
  simp only [cleanInner, Bool.not_eq_true'] at h
  cases hc : hasClose i with
  | false => rfl
  | true =>
      have h2 := (hasClose_append i ['\x7d']).mpr (Or.inl hc)
      rw [h] at h2
      cases h2

theorem getLast_of_cleanInner (i : Str) (h : cleanInner i = true) :
    i.getLast? ≠ some '\x7d' := by
  simp only [cleanInner, Bool.not_eq_true'] at h
  intro hl
  have h2 := (hasClose_append i ['\x7d']).mpr (Or.inr (Or.inr ⟨hl, by decide⟩))
  rw [h] at h2
  cases h2

/-- Appending a closing delimiter to a clean inner text closes the span
exactly there. -/
theorem splitAtClose_wrap (i p : Str)
    (hnc : hasClose i = false) (hl : i.getLast? ≠ some '\x7d') :
    splitAtClose (i ++ '\x7d' :: '\x7d' :: p) = some (i, p) := by
  induction i with
  | nil => rfl
  | cons c i' ih =>
      rw [List.cons_append, splitAtClose.eq_def]
      split
      · rename_i heq
        cases heq
      · rename_i rest heq
        exfalso
        cases i' with
        | nil =>
            rw [List.nil_append] at heq
            have hc : c = '\x7d' := by injection heq
            simp [hc] at hl
        | cons d i'' =>
            rw [List.cons_append] at heq
            have hc : c = '\x7d' := by injection heq
            have hd : d = '\x7d' := by
              have := heq
              injection this with _ h2
              injection h2
            rw [hc, hd] at hnc
            simp [hasClose] at hnc
      · rename_i hguard heq
        have hnc' : hasClose i' = false := hasClose_cons_of_tail c i' hnc
        have hl' : i'.getLast? ≠ some '\x7d' := by
          cases i' with
          | nil => simp
          | cons d i'' =>
              rw [List.getLast?_cons_cons] at hl
              exact hl
        injection heq with h1 h2
        subst h1
        subst h2
        rw [ih hnc' hl']
        rfl

/-- A non-empty clean inner text wrapped in delimiters is found as exactly
the first (and only) span. -/
theorem findSpanAux_token (i : Str) (hne : i ≠ [])
    (hnc : hasClose i = false) (hl : i.getLast? ≠ some '\x7d') :
    findSpanAux (token i) = some ([], i, []) := by
  have hsp : splitAtClose (i ++ ['\x7d', '\x7d']) = some (i, []) :=
    splitAtClose_wrap i [] hnc hl
  rw [token, findSpanAux.eq_def]
  split
  · rename_i heq; cases heq
  · rename_i rest heq
    exfalso
    have h2 : i ++ ['\x7d', '\x7d'] = '\x7d' :: '\x7d' :: rest := by
      injection heq with _ h2
      injection h2
    cases i with
    | nil => exact hne rfl
    | cons c i' =>
        rw [List.cons_append] at h2
        have hc : c = '\x7d' := by injection h2
        cases i' with
        | nil => simp [hc] at hl
        | cons d i'' =>
            rw [List.cons_append] at h2
            have hd : d = '\x7d' := by
              injection h2 with _ h3
              injection h3
            rw [hc, hd] at hnc
            simp [hasClose] at hnc
  · rename_i rest hguard heq
    have h2 : rest = i ++ ['\x7d', '\x7d'] := by
      injection heq with _ h2
      injection h2 with _ h3
      exact h3.symm
    subst h2
    rw [hsp]
    rfl
  · rename_i hg1 hg2 heq
    exfalso
    injection heq with h1 h2
    exact hg2 (i ++ ['\x7d', '\x7d']) h1.symm h2.symm

theorem rfindColon_none (i : Str) (h : ':' ∉ i) : rfindColon i = none := by
  induction i with
  | nil => rfl
  | cons c rest ih =>
      have hr := ih (fun hm => h (List.mem_cons_of_mem _ hm))
      simp only [rfindColon, hr]
      rw [if_neg (fun hc : c = ':' => h (by rw [hc]; exact List.mem_cons_self _ _))]

/-! ### Sized spans (claim C5), unsized spans (claim C6), malformed sizes (claim C3) -/

/-- Claim C5: a well-delimited span whose last `:` is followed by a suffix
splitting on `x` into exactly two parts that parse as non-negative integers
`W` and `H` expands to `<img src="PATH" width="W" height="H">`, with `PATH`
the inner text truncated before the last `:`. -/
theorem c5_sized_span (inner : Str) (k : Nat) (a b : Str) (w hh : Int)
    (h0 : inner ≠ []) (h1 : cleanInner inner = true)
    (h2 : rfindColon inner = some k)
    (h3 : splitOnX (List.drop (k + 1) inner) = [a, b])
    (h4 : pyInt a = some w) (h5 : pyInt b = some hh)
    (h6 : 0 ≤ w) (h7 : 0 ≤ hh) :
    replace_image_fields_with_image_tags (token inner)
      = .ok (imgTagSized (List.take k inner) w.toNat hh.toNat) := by
  have hnc := hasClose_of_cleanInner inner h1
  have hl := getLast_of_cleanInner inner h1
  have hf := findSpanAux_token inner h0 hnc hl
  have hp : processSpan inner = .ok (imgTagSized (List.take k inner) w.toNat hh.toNat) := by
    simp only [processSpan, h2, h3, h4, h5]
    rw [if_pos ⟨h6, h7⟩]
  rw [replace_unfold_ok (token inner) [] inner [] _ hf hp]
  simp only [List.nil_append, List.append_nil]
  exact replace_unfold_none _ (findSpanAux_none_of_no_close _
    (hasClose_imgTagSized _ _ _ (hasClose_take k inner hnc)))

/-- Witness for C5: the spec's own example
`«{{»a/b.svg:16x16«}}»` → `<img src="a/b.svg" width="16" height="16">`. -/
theorem c5_sized_span_witness :
    replace_image_fields_with_image_tags (token ("a/b.svg:16x16".data))
      = .ok ("<img src=\"a/b.svg\" width=\"16\" height=\"16\">".data) :=
  Eq.trans
    (c5_sized_span ("a/b.svg:16x16".data) 7 ("16".data) ("16".data) 16 16
      (by decide) (by decide) (by decide) (by decide) (by decide) (by decide)
      (by decide) (by decide))
    (by decide)

/-- Claim C6: a well-delimited span whose inner text has no `:` expands to
`<img src="INNER">` with the whole inner text as the path. -/
theorem c6_unsized_span (inner : Str)
    (h0 : inner ≠ []) (h1 : cleanInner inner = true) (h2 : ':' ∉ inner) :
    replace_image_fields_with_image_tags (token inner) = .ok (imgTagNoSize inner) := by
  have hnc := hasClose_of_cleanInner inner h1
  have hl := getLast_of_cleanInner inner h1
  have hf := findSpanAux_token inner h0 hnc hl
  have hp : processSpan inner = .ok (imgTagNoSize inner) := by
    simp only [processSpan, rfindColon_none inner h2]
  rw [replace_unfold_ok (token inner) [] inner [] _ hf hp]
  simp only [List.nil_append, List.append_nil]
  exact replace_unfold_none _ (findSpanAux_none_of_no_close _
    (hasClose_imgTagNoSize inner hnc))

/-- Witness for C6: the spec's own example
`«{{»a/b.svg«}}»` → `<img src="a/b.svg">`. -/
theorem c6_unsized_span_witness :
    replace_image_fields_with_image_tags (token ("a/b.svg".data))
      = .ok ("<img src=\"a/b.svg\">".data) :=
  Eq.trans
    (c6_unsized_span ("a/b.svg".data) (by decide) (by decide) (by decide))
    (by decide)

/-- Counterexample to claim C3 as stated: the input
`«{{»q:1«}}»«{{»b:cxd«}}»` contains a span (`«{{»b:cxd«}}»`) whose size
suffix splits on `x` into two unparseable parts, yet the expander raises
`UnboundLocalError` (processing the earlier `q:1` span, whose suffix has no
`x`, reads the never-assigned `image_tag`), not a parse error. -/
theorem c3_counterexample :
    occursInB (token ("b:cxd".data)) ("\x7b\x7bq:1\x7d\x7d\x7b\x7bb:cxd\x7d\x7d".data) = true ∧
    rfindColon ("b:cxd".data) = some 1 ∧
    splitOnX (List.drop 2 ("b:cxd".data)) = ["c".data, "d".data] ∧
    pyInt ("c".data) = none ∧
    replace_image_fields_with_image_tags ("\x7b\x7bq:1\x7d\x7d\x7b\x7bb:cxd\x7d\x7d".data)
      = .error .unboundLocalError ∧
    (Except.error .unboundLocalError : Except PyError Str) ≠ .error .valueError := by
  decide

/-- Claim C3, amended: when the first non-empty span scanned has a size
suffix that splits on `x` into two (or more) parts of which one of the first
two does not parse as an integer, the expander raises the parse error
(`ValueError` from `int`) to the caller. -/
theorem c3_malformed_size_raises_parse_error (s pre inner post : Str) (k : Nat)
    (a b : Str) (restParts : List Str)
    (hspan : findSpanAux s = some (pre, inner, post))
    (hk : rfindColon inner = some k)
    (hsplit : splitOnX (List.drop (k + 1) inner) = a :: b :: restParts)
    (hbad : pyInt a = none ∨ pyInt b = none) :
    replace_image_fields_with_image_tags s = .error .valueError := by
  have hp : processSpan inner = .error .valueError := by
    simp only [processSpan, hk, hsplit]
    rcases hbad with hb | hb
    · rw [hb]
    · rw [hb]
      cases pyInt a <;> rfl
  exact replace_unfold_err s pre inner post _ hspan hp

/-- Witness for the amended C3: the spec's own example
`«{{»a/b.svg:abcxdef«}}»` fails with the parse error. -/
theorem c3_malformed_size_raises_parse_error_witness :
    replace_image_fields_with_image_tags (token ("a/b.svg:abcxdef".data))
      = .error .valueError :=
  c3_malformed_size_raises_parse_error (token ("a/b.svg:abcxdef".data)) []
    ("a/b.svg:abcxdef".data) [] 7 ("abc".data) ("def".data) []
    (by decide) (by decide) (by decide) (Or.inl (by decide))

/-! ### The repeat-count logic (claim C9) -/

theorem pyGet_eq_none (row : List (Str × Str)) (k : Str)
    (h : ∀ p ∈ row, p.1 ≠ k) : pyGet row k = none := by
  induction row with
  | nil => rfl
  | cons p rest ih =>
      obtain ⟨f, v⟩ := p
      simp only [pyGet]
      rw [if_neg (h (f, v) (by simp))]
      exact ih (fun q hq => h q (by simp [hq]))

/-- Counterexample to claim C9 as stated: a present but non-numeric
repeat-count does not default to 1 — `int('abc')` raises `ValueError`. -/
theorem c9_counterexample :
    countFromRow [("@count".data, "abc".data)] = .error .valueError ∧
      countFromRow [("@count".data, "abc".data)] ≠ .ok 1 := by
  decide

/-- Claim C9, amended: the repeat-count defaults to 1 only when the reserved
`@count` field is absent (a present non-numeric value instead raises
`ValueError`), and a present negative numeric value is treated as 0. -/
theorem c9_repeat_count (row : List (Str × Str)) :
    ((∀ p ∈ row, p.1 ≠ "@count".data) → countFromRow row = .ok 1) ∧
    (∀ v n, pyGet row ("@count".data) = some v → pyInt v = some n → n < 0 →
      countFromRow row = .ok 0) ∧
    (∀ v, pyGet row ("@count".data) = some v → pyInt v = none →
      countFromRow row = .error .valueError) := by
  refine ⟨?_, ?_, ?_⟩
  · intro h
    simp only [countFromRow, pyGet_eq_none row _ h]
  · intro v n hg hp hneg
    simp only [countFromRow, hg, hp]
    rw [if_pos hneg]
  · intro v hg hp
    simp only [countFromRow, hg, hp]

/-- Witness for the amended C9 at concrete rows: absent field, negative
count, and non-numeric count. -/
theorem c9_repeat_count_witness :
    countFromRow [] = .ok 1 ∧
      countFromRow [("@count".data, "-2".data)] = .ok 0 ∧
      countFromRow [("@count".data, "abc".data)] = .error .valueError :=
  ⟨(c9_repeat_count []).1 (by decide),
   (c9_repeat_count [("@count".data, "-2".data)]).2.1 ("-2".data) (-2)
     (by decide) (by decide) (by decide),
   (c9_repeat_count [("@count".data, "abc".data)]).2.2 ("abc".data)
     (by decide) (by decide)⟩

/-! ### Distinct brace-free tokens can never overlap -/

theorem braceFree_mem (s : Str) (h : braceFree s = true) (c : Char) (hc : c ∈ s) :
    c ≠ '\x7b' ∧ c ≠ '\x7d' := by
  simp only [braceFree, List.all_eq_true] at h
  have h2 := h c hc
  simp only [Bool.and_eq_true, bne_iff_ne, ne_eq] at h2
  exact h2

theorem braceFree_tail (c : Char) (s : Str) (h : braceFree (c :: s) = true) :
    braceFree s = true := by
  simp only [braceFree, List.all_cons, Bool.and_eq_true] at h ⊢
  exact h.2

theorem token_length (n : Str) : (token n).length = n.length + 4 := by
  simp only [token, List.length_cons, List.length_append, List.length_cons,
    List.length_nil]

theorem append_cb_inj (n : Str) : ∀ (g r r' : Str), braceFree n = true →
    braceFree g = true → n ++ '\x7d' :: r = g ++ '\x7d' :: r' → n = g := by
  induction n with
  | nil =>
      intro g r r' _ hg heq
      cases g with
      | nil => rfl
      | cons c g' =>
          rw [List.nil_append, List.cons_append] at heq
          have hc : '\x7d' = c := by injection heq
          exact absurd hc.symm (braceFree_mem _ hg c (by simp)).2
  | cons c n' ih =>
      intro g r r' hn hg heq
      cases g with
      | nil =>
          rw [List.cons_append, List.nil_append] at heq
          have hc : c = '\x7d' := by injection heq
          exact absurd hc (braceFree_mem _ hn c (by simp)).2
      | cons c2 g' =>
          rw [List.cons_append, List.cons_append] at heq
          have hc : c = c2 := by injection heq
          have ht : n' ++ '\x7d' :: r = g' ++ '\x7d' :: r' := by injection heq
          rw [hc, ih g' r r' (braceFree_tail _ _ hn) (braceFree_tail _ _ hg) ht]

/-- Two tokens starting at the same position have the same name. -/
theorem token_eq_of_append (n g b d : Str) (hn : braceFree n = true)
    (hg : braceFree g = true) (heq : token n ++ b = token g ++ d) : n = g := by
  simp only [token, List.cons_append, List.append_assoc, List.cons_append,
    List.nil_append] at heq
  have h2 : n ++ '\x7d' :: '\x7d' :: b = g ++ '\x7d' :: '\x7d' :: d := by
    injection heq with _ h
    injection h
  exact append_cb_inj n g _ _ hn hg h2

/-- The head of a non-empty tail part of `n ++ «}}»` is a character of `n`
or a `«}»`. -/
theorem head_of_tail_part (n e f : Str) (fh : Char) (f' : Str)
    (heq : n ++ ['\x7d', '\x7d'] = e ++ f) (hf : f = fh :: f') :
    fh ∈ n ∨ fh = '\x7d' := by
  have hmem : fh ∈ n ++ ['\x7d', '\x7d'] := by
    rw [heq, hf]
    exact List.mem_append_right e (by simp)
  rcases List.mem_append.mp hmem with h | h
  · exact Or.inl h
  · simp only [List.mem_cons, List.not_mem_nil, or_false] at h
    rcases h with h | h
    · exact Or.inr h
    · exact Or.inr h

/-- A token cannot start strictly inside another (distinct, brace-free)
token: if `token g` starts where a proper non-empty prefix `e` of the text
still lies inside `token n`, contradiction — so `e` covers all of
`token n`. -/
theorem token_no_overlap_half (n g b d e : Str)
    (hn : braceFree n = true) (hg : braceFree g = true) (hne : n ≠ g)
    (heq : token n ++ b = e ++ (token g ++ d)) :
    (token n).length ≤ e.length := by
  cases e with
  | nil =>
      rw [List.nil_append] at heq
      exact absurd (token_eq_of_append n g b d hn hg heq) hne
  | cons ch e2 =>
      rw [token_length]
      simp only [token, List.cons_append, List.append_assoc, List.nil_append] at heq
      have h1 : '\x7b' :: (n ++ '\x7d' :: '\x7d' :: b) = e2 ++ '\x7b' :: '\x7b' :: (g ++ '\x7d' :: '\x7d' :: d) := by
        injection heq
      cases e2 with
      | nil =>
          exfalso
          rw [List.nil_append] at h1
          have h2 : n ++ '\x7d' :: '\x7d' :: b = '\x7b' :: (g ++ '\x7d' :: '\x7d' :: d) := by
            injection h1
          cases n with
          | nil =>
              rw [List.nil_append] at h2
              have : ('\x7d' : Char) = '\x7b' := by injection h2
              exact absurd this (by decide)
          | cons nc n' =>
              rw [List.cons_append] at h2
              have hnc : nc = '\x7b' := by injection h2
              exact absurd hnc (braceFree_mem _ hn nc (by simp)).1
      | cons c2 e3 =>
          rw [List.cons_append] at h1
          have h2 : n ++ '\x7d' :: '\x7d' :: b = e3 ++ '\x7b' :: '\x7b' :: (g ++ '\x7d' :: '\x7d' :: d) := by
            injection h1
          have h3 : (n ++ ['\x7d', '\x7d']) ++ b = e3 ++ ('\x7b' :: '\x7b' :: (g ++ '\x7d' :: '\x7d' :: d)) := by
            simpa [List.append_assoc] using h2
          rcases List.append_eq_append_iff.mp h3 with ⟨a2, ha1, _ha2⟩ | ⟨c', hc1, hc2⟩
          · have hlen : e3.length = n.length + 2 + a2.length := by
              rw [ha1]
              simp only [List.length_append, List.length_cons, List.length_nil]
            simp only [List.length_cons]
            omega
          · cases c' with
            | nil =>
                rw [List.append_nil] at hc1
                have hlen : e3.length = n.length + 2 := by
                  rw [← hc1]
                  simp only [List.length_append, List.length_cons, List.length_nil]
                simp only [List.length_cons]
                omega
            | cons fh f' =>
                exfalso
                rw [List.cons_append] at hc2
                have hfh : ('\x7b' : Char) = fh := by injection hc2
                rcases head_of_tail_part n e3 (fh :: f') fh f' hc1 rfl with hm | hm
                · exact absurd hfh.symm (braceFree_mem _ hn fh hm).1
                · rw [← hfh] at hm
                  exact absurd hm (by decide)

/-- Distinct brace-free tokens never overlap, in any string. -/
theorem noOverlap_token (n g : Str) (hn : braceFree n = true)
    (hg : braceFree g = true) (hne : n ≠ g) : NoOverlap (token n) (token g) := by
  intro a b c d heq
  rw [List.append_assoc, List.append_assoc] at heq
  rcases List.append_eq_append_iff.mp heq with ⟨e, he1, he2⟩ | ⟨e, he1, he2⟩
  · left
    have := token_no_overlap_half n g b d e hn hg hne he2
    rw [he1, List.length_append]
    omega
  · right
    have := token_no_overlap_half g n d b e hg hn (fun h => hne h.symm) he2
    rw [he1, List.length_append]
    omega

/-! ### Replacing a non-overlapping pattern preserves an occurrence -/

theorem strReplace_keeps_aux (o v t : Str) (hto : t ≠ []) (hoo : o ≠ [])
    (hno : NoOverlap t o) : ∀ (m : Nat) (s : Str), s.length ≤ m → occursIn t s →
    occursIn t (strReplace o v s) := by
  have holen : 0 < o.length := List.length_pos.mpr hoo
  intro m
  induction m with
  | zero =>
      intro s hs hocc
      obtain ⟨x, y, hxy⟩ := hocc
      have hnil : s = [] := List.eq_nil_of_length_eq_zero (Nat.le_zero.mp hs)
      rw [hnil] at hxy
      have h2 := hxy.symm
      simp only [List.append_eq_nil] at h2
      exact absurd h2.1.2 hto
  | succ m ih =>
      intro s hs hocc
      obtain ⟨x, y, rfl⟩ := hocc
      cases x with
      | nil =>
          rw [List.nil_append]
          rw [List.nil_append] at hs
          have H : ∀ u w, t = u ++ w → w ≠ [] → leadsWith o (w ++ y) = false := by
            intro u w hw hwne
            cases hlw : leadsWith o (w ++ y) with
            | false => rfl
            | true =>
                exfalso
                obtain ⟨r, hr⟩ := (leadsWith_iff o (w ++ y)).mp hlw
                have heq2 : [] ++ t ++ y = u ++ o ++ r := by
                  simp only [List.nil_append, List.append_assoc]
                  rw [hw, List.append_assoc, hr]
                rcases hno [] y u r heq2 with hd | hd
                · simp only [List.length_nil, Nat.zero_add] at hd
                  have : t.length = u.length + w.length := by rw [hw]; simp
                  have hwlen : 0 < w.length := List.length_pos.mpr hwne
                  omega
                · simp only [List.length_nil] at hd
                  omega
          rw [strReplace_scan o v y t H]
          exact ⟨[], strReplace o v y, by simp⟩
      | cons c x' =>
          have hgoal : (c :: x') ++ t ++ y = c :: (x' ++ (t ++ y)) := by simp
          rw [hgoal, strReplace_cons]
          by_cases hcond : (!o.isEmpty && leadsWith o (c :: (x' ++ (t ++ y)))) = true
          · rw [if_pos hcond]
            have hlw : leadsWith o (c :: (x' ++ (t ++ y))) = true := by
              have h2 := hcond
              simp only [Bool.and_eq_true] at h2
              exact h2.2
            obtain ⟨r, hr⟩ := (leadsWith_iff _ _).mp hlw
            have heq2 : (c :: x') ++ t ++ y = [] ++ o ++ r := by
              simp only [List.nil_append, List.append_assoc, List.cons_append]
              simpa using hr
            rcases hno (c :: x') y [] r heq2 with hd | hd
            · exfalso
              have htlen : 0 < t.length := List.length_pos.mpr hto
              simp only [List.length_nil, List.length_cons] at hd
              omega
            · simp only [List.length_nil, Nat.zero_add] at hd
              have hsplit : c :: (x' ++ (t ++ y)) = (c :: x') ++ (t ++ y) := by simp
              have hdrop : List.drop o.length (c :: (x' ++ (t ++ y))) =
                  List.drop o.length (c :: x') ++ (t ++ y) := by
                rw [hsplit, List.drop_append_eq_append_drop]
                have hz : o.length - (c :: x').length = 0 := by omega
                rw [hz, List.drop_zero]
              have hocc2 : occursIn t (List.drop o.length (c :: (x' ++ (t ++ y)))) := by
                rw [hdrop]
                exact ⟨List.drop o.length (c :: x'), y, by simp⟩
              have hlen2 : (List.drop o.length (c :: (x' ++ (t ++ y)))).length ≤ m := by
                rw [List.length_drop]
                simp only [List.cons_append, List.length_append, List.length_cons] at hs ⊢
                omega
              exact occursIn_append_left t _ v (ih _ hlen2 hocc2)
          · rw [if_neg hcond]
            have hocc2 : occursIn t (x' ++ (t ++ y)) := ⟨x', y, by simp⟩
            have hlen2 : (x' ++ (t ++ y)).length ≤ m := by
              simp only [List.cons_append, List.length_append, List.length_cons] at hs ⊢
              omega
            exact occursIn_cons t _ c (ih _ hlen2 hocc2)

/-- Python `str.replace` with a pattern that can never overlap `t` keeps any
occurrence of `t`. -/
theorem strReplace_keeps (o v t s : Str) (hto : t ≠ []) (hoo : o ≠ [])
    (hno : NoOverlap t o) (h : occursIn t s) : occursIn t (strReplace o v s) :=
  strReplace_keeps_aux o v t hto hoo hno s.length s le_rfl h

/-! ### Unresolved placeholders (claim C7) -/

theorem token_ne_nil (n : Str) : token n ≠ [] := by
  simp [token]

theorem content_keeps_token (n : Str) (hbf : braceFree n = true) :
    ∀ (data : List (Str × Str)) (template out : Str),
      (∀ p ∈ data, startsWithMarker p.1 = false → braceFree p.1 = true ∧ p.1 ≠ n) →
      content_from_template data template = .ok out →
      occursIn (token n) template → occursIn (token n) out := by
  intro data
  induction data with
  | nil =>
      intro template out _ hok hocc
      cases hok
      exact hocc
  | cons p rest ih =>
      intro template out hfields hok hocc
      obtain ⟨f, v⟩ := p
      cases hm : startsWithMarker f with
      | true =>
          simp only [content_from_template, hm, if_true] at hok
          exact ih template out (fun q hq => hfields q (by simp [hq])) hok hocc
      | false =>
          simp only [content_from_template, hm, if_false, Bool.false_eq_true] at hok
          obtain ⟨hbff, hfn⟩ := hfields (f, v) (by simp) hm
          cases hr : replace_image_fields_with_image_tags v with
          | error e => rw [hr] at hok; cases hok
          | ok fv =>
              rw [hr] at hok
              refine ih _ out (fun q hq => hfields q (by simp [hq])) hok ?_
              exact strReplace_keeps (token f) fv (token n) template
                (token_ne_nil n) (token_ne_nil f)
                (noOverlap_token n f hbf hbff (fun h => hfn h.symm)) hocc

theorem content_isOk_independent (data : List (Str × Str)) :
    ∀ t1 t2 : Str, exceptIsOk (content_from_template data t1)
      = exceptIsOk (content_from_template data t2) := by
  induction data with
  | nil => intro t1 t2; rfl
  | cons p rest ih =>
      intro t1 t2
      obtain ⟨f, v⟩ := p
      cases hm : startsWithMarker f with
      | true =>
          simp only [content_from_template, hm, if_true]
          exact ih t1 t2
      | false =>
          simp only [content_from_template, hm, if_false, Bool.false_eq_true]
          cases hr : replace_image_fields_with_image_tags v with
          | error e => rfl
          | ok fv => exact ih _ _

/-- Counterexample to claim C7 as stated: with the (eligible) field name
`a«}}»«{{»b` — whose replacement token is `«{{»a«}}»«{{»b«}}»` — the
template `«{{»a«}}»«{{»b«}}»` contains the token `«{{»a«}}»` whose name `a`
matches no field, yet after rendering (which succeeds, with output `V`) that
token is gone rather than left verbatim. -/
theorem c7_counterexample :
    content_from_template [(("a\x7d\x7d\x7b\x7bb".data : Str), ("V".data : Str))]
        ("\x7b\x7ba\x7d\x7d\x7b\x7bb\x7d\x7d".data) = .ok ("V".data) ∧
      startsWithMarker ("a\x7d\x7d\x7b\x7bb".data) = false ∧
      ("a\x7d\x7d\x7b\x7bb".data : Str) ≠ "a".data ∧
      occursInB (token ("a".data)) ("\x7b\x7ba\x7d\x7d\x7b\x7bb\x7d\x7d".data) = true ∧
      occursInB (token ("a".data)) ("V".data) = false := by
  decide

/-- Claim C7, amended: provided the unresolved name and all eligible field
names are brace-free, a token `«{{»n«}}»` whose name matches no eligible
field of the record remains a substring of any successful render output;
and whether rendering errors never depends on the template at all (so the
unresolved token cannot cause an error). -/
theorem c7_unresolved_token_kept (n : Str) (data : List (Str × Str))
    (template out : Str)
    (hbf : braceFree n = true)
    (hfields : ∀ p ∈ data, startsWithMarker p.1 = false →
      braceFree p.1 = true ∧ p.1 ≠ n)
    (hok : content_from_template data template = .ok out)
    (hocc : occursIn (token n) template) :
    occursIn (token n) out ∧
      ∀ t1 t2 : Str, exceptIsOk (content_from_template data t1)
        = exceptIsOk (content_from_template data t2) :=
  ⟨content_keeps_token n hbf data template out hfields hok hocc,
   content_isOk_independent data⟩

/-- Witness for the amended C7: rendering `«{{»other«}}» «{{»name«}}»`
with the record `{name: Ace}` keeps `«{{»other«}}»` verbatim. -/
theorem c7_unresolved_token_kept_witness :
    occursIn (token ("other".data)) ("\x7b\x7bother\x7d\x7d Ace".data) ∧
      ∀ t1 t2 : Str,
        exceptIsOk (content_from_template [(("name".data : Str), ("Ace".data : Str))] t1)
          = exceptIsOk (content_from_template [("name".data, "Ace".data)] t2) :=
  c7_unresolved_token_kept ("other".data) [("name".data, "Ace".data)]
    ("\x7b\x7bother\x7d\x7d \x7b\x7bname\x7d\x7d".data) ("\x7b\x7bother\x7d\x7d Ace".data)
    (by decide) (by decide) (by decide) (by decide)

/-! ### Empty spans under a brace-free prefix (claim C10) -/

theorem findSpanAux_cons_of_ne (c : Char) (hc : c ≠ '\x7b') (s : Str) :
    findSpanAux (c :: s) = (findSpanAux s).map (fun r => (c :: r.1, r.2.1, r.2.2)) := by
  rw [findSpanAux.eq_def]
  split
  · rename_i heq; cases heq
  · rename_i rest heq
    exfalso
    have h1 : c = '\x7b' := by injection heq
    exact hc h1
  · rename_i rest hguard heq
    exfalso
    have h1 : c = '\x7b' := by injection heq
    exact hc h1
  · rename_i hg1 hg2 heq
    injection heq with h1 h2
    subst h1
    subst h2
    rfl

/-- Scanning skips over a prefix containing no `«{»` followed by an empty
span, and finds the first non-empty span of the remainder. -/
theorem findSpanAux_prefix_skip (u : Str) (hu : ∀ c ∈ u, c ≠ '\x7b') (v : Str) :
    findSpanAux (u ++ '\x7b' :: '\x7b' :: '\x7d' :: '\x7d' :: v) =
      (findSpanAux v).map
        (fun r => (u ++ '\x7b' :: '\x7b' :: '\x7d' :: '\x7d' :: r.1, r.2.1, r.2.2)) := by
  induction u with
  | nil =>
      rw [List.nil_append, findSpanAux_empty_skip]
      cases findSpanAux v <;> rfl
  | cons c u' ih =>
      rw [List.cons_append, findSpanAux_cons_of_ne c (hu c (by simp)) _,
        ih (fun d hd => hu d (by simp [hd]))]
      cases findSpanAux v <;> rfl

/-- The expander leaves an empty span verbatim when only `«{»`-free text
precedes it, and continues past it on the rest of the string. -/
theorem replace_prefix_empty_span (u : Str) (hu : ∀ c ∈ u, c ≠ '\x7b') :
    ∀ (n : Nat) (v : Str), countCB v ≤ n →
    replace_image_fields_with_image_tags (u ++ '\x7b' :: '\x7b' :: '\x7d' :: '\x7d' :: v) =
      Except.map (fun r => u ++ '\x7b' :: '\x7b' :: '\x7d' :: '\x7d' :: r)
        (replace_image_fields_with_image_tags v) := by
  intro n
  induction n with
  | zero =>
      intro v hv
      have hn := findSpanAux_none_of_countCB_zero v (Nat.le_zero.mp hv)
      rw [replace_unfold_none v hn,
        replace_unfold_none _ (by rw [findSpanAux_prefix_skip u hu v, hn]; rfl)]
      rfl
  | succ n ih =>
      intro v hv
      cases hf : findSpanAux v with
      | none =>
          rw [replace_unfold_none v hf,
            replace_unfold_none _ (by rw [findSpanAux_prefix_skip u hu v, hf]; rfl)]
          rfl
      | some r =>
          obtain ⟨p, i, q⟩ := r
          have hfu : findSpanAux (u ++ '\x7b' :: '\x7b' :: '\x7d' :: '\x7d' :: v) =
              some (u ++ '\x7b' :: '\x7b' :: '\x7d' :: '\x7d' :: p, i, q) := by
            rw [findSpanAux_prefix_skip u hu v, hf]; rfl
          cases hp : processSpan i with
          | error e =>
              rw [replace_unfold_err _ _ _ _ e hfu hp,
                replace_unfold_err v p i q e hf hp]
              rfl
          | ok tag =>
              rw [replace_unfold_ok _ _ _ _ tag hfu hp,
                replace_unfold_ok v p i q tag hf hp]
              have hassoc : (u ++ '\x7b' :: '\x7b' :: '\x7d' :: '\x7d' :: p) ++ (tag ++ q) =
                  u ++ '\x7b' :: '\x7b' :: '\x7d' :: '\x7d' :: (p ++ (tag ++ q)) := by
                simp
              rw [hassoc]
              have hstep := step_countCB v p i q tag hf hp
              exact ih _ (by omega)

/-- Counterexample to claim C10 as stated: the input `«{{»x«{{}}»` contains
the empty span `«{{}}»`, but its closing `«}}»` is captured as the
(non-greedy) close of the match that starts at the leading `«{{»` (inner
text `x«{{»`), so the output `<img src="x«{{»">` contains no `«{{}}»` at
all — the empty span is not left verbatim. -/
theorem c10_counterexample :
    occursInB (token []) ("\x7b\x7bx\x7b\x7b\x7d\x7d".data) = true ∧
      replace_image_fields_with_image_tags ("\x7b\x7bx\x7b\x7b\x7d\x7d".data) =
        .ok ("<img src=\"x\x7b\x7b\">".data) ∧
      occursInB (token []) ("<img src=\"x\x7b\x7b\">".data) = false := by
  decide

/-- Claim C10, amended: an empty `«{{}}»` span preceded only by text
containing no `«{»` character (in particular one at the start of the input)
is left verbatim in the output, and scanning continues past it, still
expanding every later non-empty span of the string (errors propagate
unchanged); in particular `«{{}}{{a}}»` yields `«{{}}»<img src="a">`.
(With an unmatched `«{{»` before it the empty span can instead be
destroyed — see `c10_counterexample`.) -/
theorem c10_empty_span_kept :
    (∀ u v : Str, (∀ c ∈ u, c ≠ '\x7b') →
      replace_image_fields_with_image_tags
          (u ++ '\x7b' :: '\x7b' :: '\x7d' :: '\x7d' :: v) =
        Except.map (fun r => u ++ '\x7b' :: '\x7b' :: '\x7d' :: '\x7d' :: r)
          (replace_image_fields_with_image_tags v)) ∧
    replace_image_fields_with_image_tags ("\x7b\x7b\x7d\x7d\x7b\x7ba\x7d\x7d".data) =
      .ok ("\x7b\x7b\x7d\x7d<img src=\"a\">".data) := by
  refine ⟨fun u v hu => replace_prefix_empty_span u hu (countCB v) v le_rfl, ?_⟩
  decide

/-- Witness for the amended C10 at a concrete brace-free prefix `A«}»`:
the empty span survives and the later span is still expanded. -/
theorem c10_empty_span_kept_witness :
    (∀ c ∈ ("A\x7d".data : Str), c ≠ '\x7b') ∧
      replace_image_fields_with_image_tags
          ("A\x7d\x7b\x7b\x7d\x7d\x7b\x7bq\x7d\x7d".data) =
        .ok ("A\x7d\x7b\x7b\x7d\x7d<img src=\"q\">".data) := by
  refine ⟨by decide, ?_⟩
  have h := c10_empty_span_kept.1 ("A\x7d".data) ("\x7b\x7bq\x7d\x7d".data) (by decide)
  rw [show ("A\x7d\x7b\x7b\x7d\x7d\x7b\x7bq\x7d\x7d".data : Str) =
    "A\x7d".data ++ '\x7b' :: '\x7b' :: '\x7d' :: '\x7d' :: ("\x7b\x7bq\x7d\x7d".data) from rfl]
  rw [h]
  decide
